import Mathlib

/-!
Verification development for the coba caching layer.

The storage backends (`NoneCache`, `MemoryCache`, `DiskCache`) are shallow
embeddings of the classes in `coba/execution.py`.  Python dictionaries are
modelled as association lists; a Python `KeyError` / `FileNotFoundError` is
modelled by an `Option` / `Except` result.  The concurrent cache coordinator
(`ConcurrentCacher` in `coba/config`) is not part of the source tree, so it is
modelled from the specification's description of its algorithm.
-/

namespace Coba

/-! ### Python dictionary model -/

/-- Lookup in a Python dict modelled as an association list.  `dict[key]`
returns the value when present; the `none` result models a `KeyError`. -/
def dictLookup {K V : Type} [DecidableEq K] (d : List (K × V)) (k : K) : Option V :=
  match d.find? (fun p => decide (p.1 = k)) with
  | some p => some p.2
  | none => none

/-- `dict[key] = value`: insert or overwrite, keeping at most one entry per key. -/
def dictInsert {K V : Type} [DecidableEq K] (d : List (K × V)) (k : K) (v : V) :
    List (K × V) :=
  (k, v) :: d.filter (fun p => decide (p.1 ≠ k))

/-- `del dict[key]` after the key is known to be present: drop all entries for `k`. -/
def dictErase {K V : Type} [DecidableEq K] (d : List (K × V)) (k : K) : List (K × V) :=
  d.filter (fun p => decide (p.1 ≠ k))

/-! ### NoneCache (`execution.py` lines 141-155) -/

/-- `NoneCache.__init__` creates a `_cache` dict that no method ever touches. -/
structure NoneCache (K V : Type) where
  cache : List (K × V)

namespace NoneCache

/-- `NoneCache.__contains__`: always `False`. -/
def contains {K V : Type} (_ : NoneCache K V) (_ : K) : Bool := false

/-- `NoneCache.get`: always raises (`none` models the raised `Exception`). -/
def get {K V : Type} (_ : NoneCache K V) (_ : K) : Option V := none

/-- `NoneCache.put`: returns the value unchanged and stores nothing. -/
def put {K V : Type} (c : NoneCache K V) (_ : K) (v : V) : NoneCache K V × V := (c, v)

/-- `NoneCache.rmv`: `pass`. -/
def rmv {K V : Type} (c : NoneCache K V) (_ : K) : NoneCache K V := c

end NoneCache

/-! ### MemoryCache (`execution.py` lines 157-173) -/

/-- `MemoryCache.__init__` creates an empty `_cache` dict. -/
structure MemoryCache (K V : Type) where
  cache : List (K × V)

namespace MemoryCache

/-- `MemoryCache.__contains__`: `key in self._cache`. -/
def contains {K V : Type} [DecidableEq K] (c : MemoryCache K V) (k : K) : Bool :=
  (dictLookup c.cache k).isSome

/-- `MemoryCache.get`: `return self._cache[key]`; `none` models the `KeyError`
raised by the dict access when the key is absent. -/
def get {K V : Type} [DecidableEq K] (c : MemoryCache K V) (k : K) : Option V :=
  dictLookup c.cache k

/-- `MemoryCache.put`: `self._cache[key] = value; return value`. -/
def put {K V : Type} [DecidableEq K] (c : MemoryCache K V) (k : K) (v : V) :
    MemoryCache K V × V :=
  (⟨dictInsert c.cache k v⟩, v)

/-- `MemoryCache.rmv`: `del self._cache[key]`; `none` models the `KeyError`
raised when the key is absent. -/
def rmv {K V : Type} [DecidableEq K] (c : MemoryCache K V) (k : K) :
    Option (MemoryCache K V) :=
  if (dictLookup c.cache k).isSome then some ⟨dictErase c.cache k⟩ else none

end MemoryCache

/-! ### DiskCache (`execution.py` lines 175-250)

Filenames are modelled as `List Char`; the cache directory is modelled as a
finite map from on-disk filename to its stored bytes (`List Nat`).  The gzip
`compress`/`decompress` pair from Python's standard library is external to the
repository, so it is abstracted as a `Codec` parameter; `decomp` returning
`none` models the exception `decompress` raises on corrupt data. -/

/-- An abstract lossless byte codec standing for gzip `compress`/`decompress`. -/
structure Codec where
  comp : List Nat → List Nat
  decomp : List Nat → Option (List Nat)

/-- A codec is lossless when decompression inverts compression, which is the
contract of gzip. -/
def Codec.Lossless (c : Codec) : Prop :=
  ∀ b : List Nat, c.decomp (c.comp b) = some b

/-- The suffix `".gz"` as a character list. -/
def gzChars : List Char := ['.', 'g', 'z']

/-- `filename.endswith(".gz")`: the last three characters are `".gz"`. -/
def endsWithGz (f : List Char) : Bool := decide (f.reverse.take 3 = gzChars.reverse)

/-- The outcome of `DiskCache.get`: `notFound` models the `FileNotFoundError`
from `Path.read_bytes`, `corrupt` the exception `decompress` raises. -/
inductive GetErr : Type
  | notFound : GetErr
  | corrupt : GetErr
deriving DecidableEq

/-- The state of a `DiskCache`: the files present in its cache directory. -/
structure DiskCache where
  files : List (List Char × List Nat)

namespace DiskCache

/-- `DiskCache._private_name`: append `".gz"` unless the filename already ends
with it. -/
def private_name (f : List Char) : List Char :=
  if endsWithGz f then f else f ++ gzChars

/-- `DiskCache.__contains__`: `self._private_path(filename).exists()`. -/
def contains [DecidableEq Char] (d : DiskCache) (f : List Char) : Bool :=
  (dictLookup d.files (private_name f)).isSome

/-- `DiskCache.get`: read the bytes at the private path (`FileNotFoundError`
when absent); return them raw when the request ends in `".gz"`, otherwise
decompressed. -/
def get (c : Codec) (d : DiskCache) (f : List Char) : Except GetErr (List Nat) :=
  match dictLookup d.files (private_name f) with
  | none => Except.error GetErr.notFound
  | some resource_bytes =>
      if endsWithGz f then Except.ok resource_bytes
      else
        match c.decomp resource_bytes with
        | some b => Except.ok b
        | none => Except.error GetErr.corrupt

/-- `DiskCache.put`: store the received bytes raw when the filename ends in
`".gz"`, compressed otherwise; return `BytesIO(received_bytes)`, i.e. the bytes
as received. -/
def put (c : Codec) (d : DiskCache) (f : List Char) (v : List Nat) :
    DiskCache × List Nat :=
  let resource_bytes := if endsWithGz f then v else c.comp v
  (⟨dictInsert d.files (private_name f) resource_bytes⟩, v)

/-- `DiskCache.rmv`: unlink the private path only if it exists. -/
def rmv (d : DiskCache) (f : List Char) : DiskCache :=
  if (dictLookup d.files (private_name f)).isSome then
    ⟨dictErase d.files (private_name f)⟩
  else d

end DiskCache

/-! ### Basic dictionary lemmas -/

theorem find?_filterNe {K V : Type} [DecidableEq K]
    (d : List (K × V)) (k k' : K) (h : k' ≠ k) :
    (d.filter (fun p => decide (p.1 ≠ k))).find? (fun p => decide (p.1 = k'))
      = d.find? (fun p => decide (p.1 = k')) := by
  induction d with
  | nil => rfl
  | cons p d ih =>
      by_cases hp : p.1 = k
      · have hq : p.1 ≠ k' := fun hk => h (hk ▸ hp)
        rw [List.filter_cons_of_neg (by simpa using hp),
          List.find?_cons_of_neg _ (by simpa using hq)]
        exact ih
      · rw [List.filter_cons_of_pos (by simpa using hp)]
        by_cases hq : p.1 = k'
        · rw [List.find?_cons_of_pos _ (by simpa using hq),
            List.find?_cons_of_pos _ (by simpa using hq)]
        · rw [List.find?_cons_of_neg _ (by simpa using hq),
            List.find?_cons_of_neg _ (by simpa using hq)]
          exact ih

theorem find?_filterNe_self {K V : Type} [DecidableEq K]
    (d : List (K × V)) (k : K) :
    (d.filter (fun p => decide (p.1 ≠ k))).find? (fun p => decide (p.1 = k)) = none := by
  induction d with
  | nil => rfl
  | cons p d ih =>
      by_cases hp : p.1 = k
      · rw [List.filter_cons_of_neg (by simpa using hp)]
        exact ih
      · rw [List.filter_cons_of_pos (by simpa using hp),
          List.find?_cons_of_neg _ (by simpa using hp)]
        exact ih

theorem dictLookup_dictInsert_self {K V : Type} [DecidableEq K]
    (d : List (K × V)) (k : K) (v : V) : dictLookup (dictInsert d k v) k = some v := by
  simp [dictLookup, dictInsert, List.find?_cons]

theorem dictLookup_dictInsert_ne {K V : Type} [DecidableEq K]
    (d : List (K × V)) (k k' : K) (v : V) (h : k' ≠ k) :
    dictLookup (dictInsert d k v) k' = dictLookup d k' := by
  have hk : k ≠ k' := fun hk => h hk.symm
  simp only [dictLookup, dictInsert, List.find?_cons, hk, decide_False]
  rw [find?_filterNe d k k' h]

theorem dictLookup_dictErase_self {K V : Type} [DecidableEq K]
    (d : List (K × V)) (k : K) : dictLookup (dictErase d k) k = none := by
  simp only [dictLookup, dictErase, find?_filterNe_self]

theorem dictLookup_dictErase_ne {K V : Type} [DecidableEq K]
    (d : List (K × V)) (k k' : K) (h : k' ≠ k) :
    dictLookup (dictErase d k) k' = dictLookup d k' := by
  simp only [dictLookup, dictErase]
  rw [find?_filterNe d k k' h]

/-! ### The Concurrent Cache Coordinator: Key State Table

Modelled from the spec: the coordinator class (`ConcurrentCacher` in
`coba/config`) is not in the source tree, so the Key State Table and its
transition protocol are taken from spec §3 and §4.1: a mapping from key to a
signed integer (absent = idle = 0, `n > 0` = `n` concurrent readers,
`-1` = one writer), entries created on acquire and deleted when they return
to `0` on retire. -/

/-- The value the Key State Table associates to a key, `0` when absent. -/
def lookup0 {K : Type} [DecidableEq K] (t : List (K × Int)) (k : K) : Int :=
  match dictLookup t k with
  | some n => n
  | none => 0

/-- Whether the Key State Table holds an entry for `k`. -/
def hasEntry {K : Type} [DecidableEq K] (t : List (K × Int)) (k : K) : Bool :=
  (dictLookup t k).isSome

/-- Modelled from the spec: write `n` into the Key State Table for `k`,
deleting the entry when it reaches `0` ("if it reaches 0, delete the entry";
"delete/reset state[key] to 0"). -/
def tblSet {K : Type} [DecidableEq K] (t : List (K × Int)) (k : K) (n : Int) :
    List (K × Int) :=
  if n = 0 then dictErase t k else dictInsert t k n

theorem lookup0_tblSet_self {K : Type} [DecidableEq K]
    (t : List (K × Int)) (k : K) (n : Int) : lookup0 (tblSet t k n) k = n := by
  by_cases h : n = 0
  · simp [tblSet, h, lookup0, dictLookup_dictErase_self]
  · simp [tblSet, h, lookup0, dictLookup_dictInsert_self]

theorem lookup0_tblSet_ne {K : Type} [DecidableEq K]
    (t : List (K × Int)) (k k' : K) (n : Int) (h : k' ≠ k) :
    lookup0 (tblSet t k n) k' = lookup0 t k' := by
  by_cases h0 : n = 0
  · simp [tblSet, h0, lookup0, dictLookup_dictErase_ne t k k' h]
  · simp [tblSet, h0, lookup0, dictLookup_dictInsert_ne t k k' n h]

theorem hasEntry_tblSet_ne {K : Type} [DecidableEq K]
    (t : List (K × Int)) (k k' : K) (n : Int) (h : k' ≠ k) :
    hasEntry (tblSet t k n) k' = hasEntry t k' := by
  by_cases h0 : n = 0
  · simp [tblSet, h0, hasEntry, dictLookup_dictErase_ne t k k' h]
  · simp [tblSet, h0, hasEntry, dictLookup_dictInsert_ne t k k' n h]

theorem hasEntry_tblSet_zero {K : Type} [DecidableEq K]
    (t : List (K × Int)) (k : K) : hasEntry (tblSet t k 0) k = false := by
  simp [tblSet, hasEntry, dictLookup_dictErase_self]

theorem noZero_tblSet_self {K : Type} [DecidableEq K]
    (t : List (K × Int)) (k : K) (n : Int) :
    hasEntry (tblSet t k n) k = true → lookup0 (tblSet t k n) k ≠ 0 := by
  intro hmem
  rw [lookup0_tblSet_self]
  intro h0
  rw [h0, hasEntry_tblSet_zero] at hmem
  exact Bool.false_ne_true hmem

/-! ### The coordinator's operations as a thread-interleaving system

Modelled from the spec: each in-flight operation of the coordinator is a
thread that (§4.1) waits for its per-key predicate under the shared lock,
acquires a reader or writer slot, runs its backend call outside the lock
(the `inFlight` phase), and finally retires its slot and wakes waiters. -/

/-- The four public operations of the coordinator (§4.1). -/
inductive OpKind : Type
  | get : OpKind
  | put : OpKind
  | rmv : OpKind
  | getPut : OpKind
deriving DecidableEq

/-- Writer-type operations per the glossary: `put`, `remove`, `getOrCompute`. -/
def OpKind.isWriter : OpKind → Bool
  | OpKind.get => false
  | OpKind.put => true
  | OpKind.rmv => true
  | OpKind.getPut => true

/-- Where a thread's operation currently stands: not yet acquired, holding its
slot while the backend call runs, or retired. -/
inductive Phase : Type
  | ready : Phase
  | inFlight : Phase
  | retired : Phase
deriving DecidableEq

/-- One caller thread: its operation, its key, and how far it has got. -/
structure ThreadSt (K : Type) where
  kind : OpKind
  key : K
  phase : Phase

/-- The coordinator's shared state: the Key State Table plus the caller
threads (the lock itself is implicit: each step is one atomic critical
section). -/
structure CoordState (K : Type) where
  table : List (K × Int)
  threads : List (ThreadSt K)

/-- Whether a thread is a reader-type operation in flight on key `k`. -/
def isReaderOn {K : Type} [DecidableEq K] (k : K) (t : ThreadSt K) : Bool :=
  !t.kind.isWriter && decide (t.key = k) && decide (t.phase = Phase.inFlight)

/-- Whether a thread is a writer-type operation in flight on key `k`. -/
def isWriterOn {K : Type} [DecidableEq K] (k : K) (t : ThreadSt K) : Bool :=
  t.kind.isWriter && decide (t.key = k) && decide (t.phase = Phase.inFlight)

/-- The number of reader-type operations in flight on `k`. -/
def readersOn {K : Type} [DecidableEq K] (ths : List (ThreadSt K)) (k : K) : Nat :=
  ths.countP (isReaderOn k)

/-- The number of writer-type operations in flight on `k`. -/
def writersOn {K : Type} [DecidableEq K] (ths : List (ThreadSt K)) (k : K) : Nat :=
  ths.countP (isWriterOn k)

/-- Modelled from the spec: the atomic transitions of the coordinator
(§4.1).  A reader acquires while no writer holds the key (wait while
`state[key] == -1`, then increment); a writer acquires only on an idle key
(wait while `state[key] != 0`, then set `-1`); retiring a reader decrements
(deleting the entry at `0`), retiring a writer resets the key to idle.  The
backend call is the interval between the acquire step and the retire step. -/
inductive CStep {K : Type} [DecidableEq K] : CoordState K → CoordState K → Prop
  | acquireRead (tbl : List (K × Int)) (l₁ l₂ : List (ThreadSt K)) (k : K)
      (hw : lookup0 tbl k ≠ -1) :
      CStep ⟨tbl, l₁ ++ ⟨OpKind.get, k, Phase.ready⟩ :: l₂⟩
            ⟨tblSet tbl k (lookup0 tbl k + 1), l₁ ++ ⟨OpKind.get, k, Phase.inFlight⟩ :: l₂⟩
  | acquireWrite (tbl : List (K × Int)) (l₁ l₂ : List (ThreadSt K)) (k : K)
      (op : OpKind) (hop : op.isWriter = true) (h0 : lookup0 tbl k = 0) :
      CStep ⟨tbl, l₁ ++ ⟨op, k, Phase.ready⟩ :: l₂⟩
            ⟨tblSet tbl k (-1), l₁ ++ ⟨op, k, Phase.inFlight⟩ :: l₂⟩
  | retireRead (tbl : List (K × Int)) (l₁ l₂ : List (ThreadSt K)) (k : K) :
      CStep ⟨tbl, l₁ ++ ⟨OpKind.get, k, Phase.inFlight⟩ :: l₂⟩
            ⟨tblSet tbl k (lookup0 tbl k - 1), l₁ ++ ⟨OpKind.get, k, Phase.retired⟩ :: l₂⟩
  | retireWrite (tbl : List (K × Int)) (l₁ l₂ : List (ThreadSt K)) (k : K)
      (op : OpKind) (hop : op.isWriter = true) :
      CStep ⟨tbl, l₁ ++ ⟨op, k, Phase.inFlight⟩ :: l₂⟩
            ⟨tblSet tbl k 0, l₁ ++ ⟨op, k, Phase.retired⟩ :: l₂⟩

/-- The coordinator starts with an empty Key State Table; any collection of
pending operations may be submitted. -/
def initState {K : Type} (ops : List (OpKind × K)) : CoordState K :=
  ⟨[], ops.map (fun p => ⟨p.1, p.2, Phase.ready⟩)⟩

/-- States reachable by any interleaving of get/put/remove/getOrCompute
steps from an initial state. -/
inductive Reach {K : Type} [DecidableEq K] : CoordState K → Prop
  | init (ops : List (OpKind × K)) : Reach (initState ops)
  | step (s s' : CoordState K) : Reach s → CStep s s' → Reach s'

/-- The Key State Table invariant: each key is either held by the in-flight
readers (table value = their number, no writer), or by exactly one in-flight
writer (table value `-1`, no readers); stored entries are never `0`. -/
def Inv {K : Type} [DecidableEq K] (s : CoordState K) : Prop :=
  ∀ k : K,
    (hasEntry s.table k = true → lookup0 s.table k ≠ 0) ∧
    ((writersOn s.threads k = 0 ∧
        lookup0 s.table k = (readersOn s.threads k : Int)) ∨
     (writersOn s.threads k = 1 ∧ readersOn s.threads k = 0 ∧
        lookup0 s.table k = -1))

theorem countP_middle {α : Type} (p : α → Bool) (l₁ l₂ : List α) (a : α) :
    (l₁ ++ a :: l₂).countP p
      = l₁.countP p + l₂.countP p + (if p a then 1 else 0) := by
  rw [List.countP_append, List.countP_cons]
  omega

theorem countP_middle_false {α : Type} (p : α → Bool) (l₁ l₂ : List α) (a : α)
    (h : p a = false) :
    (l₁ ++ a :: l₂).countP p = l₁.countP p + l₂.countP p := by
  rw [countP_middle, h]
  simp

theorem countP_middle_true {α : Type} (p : α → Bool) (l₁ l₂ : List α) (a : α)
    (h : p a = true) :
    (l₁ ++ a :: l₂).countP p = l₁.countP p + l₂.countP p + 1 := by
  rw [countP_middle, h]
  simp

theorem isReaderOn_eval {K : Type} [DecidableEq K] (k k' : K) (op : OpKind) (ph : Phase) :
    isReaderOn k' ⟨op, k, ph⟩
      = (!op.isWriter && decide (k = k') && decide (ph = Phase.inFlight)) := rfl

theorem isWriterOn_eval {K : Type} [DecidableEq K] (k k' : K) (op : OpKind) (ph : Phase) :
    isWriterOn k' ⟨op, k, ph⟩
      = (op.isWriter && decide (k = k') && decide (ph = Phase.inFlight)) := rfl

theorem readersOn_middle_false {K : Type} [DecidableEq K]
    (l₁ l₂ : List (ThreadSt K)) (t : ThreadSt K) (k : K) (h : isReaderOn k t = false) :
    readersOn (l₁ ++ t :: l₂) k = readersOn l₁ k + readersOn l₂ k :=
  countP_middle_false _ l₁ l₂ t h

theorem readersOn_middle_true {K : Type} [DecidableEq K]
    (l₁ l₂ : List (ThreadSt K)) (t : ThreadSt K) (k : K) (h : isReaderOn k t = true) :
    readersOn (l₁ ++ t :: l₂) k = readersOn l₁ k + readersOn l₂ k + 1 :=
  countP_middle_true _ l₁ l₂ t h

theorem writersOn_middle_false {K : Type} [DecidableEq K]
    (l₁ l₂ : List (ThreadSt K)) (t : ThreadSt K) (k : K) (h : isWriterOn k t = false) :
    writersOn (l₁ ++ t :: l₂) k = writersOn l₁ k + writersOn l₂ k :=
  countP_middle_false _ l₁ l₂ t h

theorem writersOn_middle_true {K : Type} [DecidableEq K]
    (l₁ l₂ : List (ThreadSt K)) (t : ThreadSt K) (k : K) (h : isWriterOn k t = true) :
    writersOn (l₁ ++ t :: l₂) k = writersOn l₁ k + writersOn l₂ k + 1 :=
  countP_middle_true _ l₁ l₂ t h

theorem inv_step {K : Type} [DecidableEq K] {s s' : CoordState K}
    (hs : Inv s) (hstep : CStep s s') : Inv s' := by
  cases hstep with
  | acquireRead tbl l₁ l₂ k hw =>
      intro k'
      rcases hs k' with ⟨hnz, hcase⟩
      dsimp only at hnz hcase
      have hWmid : ∀ ph, isWriterOn k' (⟨OpKind.get, k, ph⟩ : ThreadSt K) = false := by
        intro ph
        rw [isWriterOn_eval]
        simp [OpKind.isWriter]
      by_cases hkk : k' = k
      · subst hkk
        have hRold : isReaderOn k' (⟨OpKind.get, k', Phase.ready⟩ : ThreadSt K) = false := by
          rw [isReaderOn_eval]
          simp
        have hRnew : isReaderOn k' (⟨OpKind.get, k', Phase.inFlight⟩ : ThreadSt K) = true := by
          rw [isReaderOn_eval]
          simp [OpKind.isWriter]
        rcases hcase with ⟨hw0, hval⟩ | ⟨hw1, hr0, hv⟩
        · refine ⟨noZero_tblSet_self tbl k' (lookup0 tbl k' + 1), Or.inl ⟨?_, ?_⟩⟩
          · rw [writersOn_middle_false l₁ l₂ _ k' (hWmid _)]
            rw [writersOn_middle_false l₁ l₂ _ k' (hWmid _)] at hw0
            exact hw0
          · rw [lookup0_tblSet_self, readersOn_middle_true l₁ l₂ _ k' hRnew]
            rw [readersOn_middle_false l₁ l₂ _ k' hRold] at hval
            omega
        · exact absurd hv hw
      · have hkne : k ≠ k' := fun h => hkk h.symm
        have hRmid : ∀ ph, isReaderOn k' (⟨OpKind.get, k, ph⟩ : ThreadSt K) = false := by
          intro ph
          rw [isReaderOn_eval]
          simp [hkne]
        refine ⟨?_, ?_⟩
        · rw [hasEntry_tblSet_ne _ _ _ _ hkk, lookup0_tblSet_ne _ _ _ _ hkk]
          exact hnz
        · rw [lookup0_tblSet_ne _ _ _ _ hkk,
            writersOn_middle_false l₁ l₂ _ k' (hWmid _),
            readersOn_middle_false l₁ l₂ _ k' (hRmid _)]
          rw [writersOn_middle_false l₁ l₂ _ k' (hWmid _),
            readersOn_middle_false l₁ l₂ _ k' (hRmid _)] at hcase
          exact hcase
  | acquireWrite tbl l₁ l₂ k op hop h0 =>
      intro k'
      rcases hs k' with ⟨hnz, hcase⟩
      dsimp only at hnz hcase
      have hRmid : ∀ ph, isReaderOn k' (⟨op, k, ph⟩ : ThreadSt K) = false := by
        intro ph
        rw [isReaderOn_eval, hop]
        simp
      by_cases hkk : k' = k
      · subst hkk
        have hWold : isWriterOn k' (⟨op, k', Phase.ready⟩ : ThreadSt K) = false := by
          rw [isWriterOn_eval]
          simp
        have hWnew : isWriterOn k' (⟨op, k', Phase.inFlight⟩ : ThreadSt K) = true := by
          rw [isWriterOn_eval, hop]
          simp
        rcases hcase with ⟨hw0, hval⟩ | ⟨hw1, hr0, hv⟩
        · refine ⟨noZero_tblSet_self tbl k' (-1), Or.inr ⟨?_, ?_, ?_⟩⟩
          · rw [writersOn_middle_true l₁ l₂ _ k' hWnew]
            rw [writersOn_middle_false l₁ l₂ _ k' hWold] at hw0
            omega
          · rw [readersOn_middle_false l₁ l₂ _ k' (hRmid _)]
            rw [readersOn_middle_false l₁ l₂ _ k' (hRmid _), h0] at hval
            omega
          · exact lookup0_tblSet_self tbl k' (-1)
        · rw [hv] at h0
          exact absurd h0 (by norm_num)
      · have hkne : k ≠ k' := fun h => hkk h.symm
        have hWmid : ∀ ph, isWriterOn k' (⟨op, k, ph⟩ : ThreadSt K) = false := by
          intro ph
          rw [isWriterOn_eval]
          simp [hkne]
        refine ⟨?_, ?_⟩
        · rw [hasEntry_tblSet_ne _ _ _ _ hkk, lookup0_tblSet_ne _ _ _ _ hkk]
          exact hnz
        · rw [lookup0_tblSet_ne _ _ _ _ hkk,
            writersOn_middle_false l₁ l₂ _ k' (hWmid _),
            readersOn_middle_false l₁ l₂ _ k' (hRmid _)]
          rw [writersOn_middle_false l₁ l₂ _ k' (hWmid _),
            readersOn_middle_false l₁ l₂ _ k' (hRmid _)] at hcase
          exact hcase
  | retireRead tbl l₁ l₂ k =>
      intro k'
      rcases hs k' with ⟨hnz, hcase⟩
      dsimp only at hnz hcase
      have hWmid : ∀ ph, isWriterOn k' (⟨OpKind.get, k, ph⟩ : ThreadSt K) = false := by
        intro ph
        rw [isWriterOn_eval]
        simp [OpKind.isWriter]
      by_cases hkk : k' = k
      · subst hkk
        have hRold : isReaderOn k' (⟨OpKind.get, k', Phase.inFlight⟩ : ThreadSt K) = true := by
          rw [isReaderOn_eval]
          simp [OpKind.isWriter]
        have hRnew : isReaderOn k' (⟨OpKind.get, k', Phase.retired⟩ : ThreadSt K) = false := by
          rw [isReaderOn_eval]
          simp
        rcases hcase with ⟨hw0, hval⟩ | ⟨hw1, hr0, hv⟩
        · refine ⟨noZero_tblSet_self tbl k' (lookup0 tbl k' - 1), Or.inl ⟨?_, ?_⟩⟩
          · rw [writersOn_middle_false l₁ l₂ _ k' (hWmid _)]
            rw [writersOn_middle_false l₁ l₂ _ k' (hWmid _)] at hw0
            exact hw0
          · rw [lookup0_tblSet_self, readersOn_middle_false l₁ l₂ _ k' hRnew]
            rw [readersOn_middle_true l₁ l₂ _ k' hRold] at hval
            omega
        · rw [readersOn_middle_true l₁ l₂ _ k' hRold] at hr0
          omega
      · have hkne : k ≠ k' := fun h => hkk h.symm
        have hRmid : ∀ ph, isReaderOn k' (⟨OpKind.get, k, ph⟩ : ThreadSt K) = false := by
          intro ph
          rw [isReaderOn_eval]
          simp [hkne]
        refine ⟨?_, ?_⟩
        · rw [hasEntry_tblSet_ne _ _ _ _ hkk, lookup0_tblSet_ne _ _ _ _ hkk]
          exact hnz
        · rw [lookup0_tblSet_ne _ _ _ _ hkk,
            writersOn_middle_false l₁ l₂ _ k' (hWmid _),
            readersOn_middle_false l₁ l₂ _ k' (hRmid _)]
          rw [writersOn_middle_false l₁ l₂ _ k' (hWmid _),
            readersOn_middle_false l₁ l₂ _ k' (hRmid _)] at hcase
          exact hcase
  | retireWrite tbl l₁ l₂ k op hop =>
      intro k'
      rcases hs k' with ⟨hnz, hcase⟩
      dsimp only at hnz hcase
      have hRmid : ∀ ph, isReaderOn k' (⟨op, k, ph⟩ : ThreadSt K) = false := by
        intro ph
        rw [isReaderOn_eval, hop]
        simp
      by_cases hkk : k' = k
      · subst hkk
        have hWold : isWriterOn k' (⟨op, k', Phase.inFlight⟩ : ThreadSt K) = true := by
          rw [isWriterOn_eval, hop]
          simp
        have hWnew : isWriterOn k' (⟨op, k', Phase.retired⟩ : ThreadSt K) = false := by
          rw [isWriterOn_eval]
          simp
        rcases hcase with ⟨hw0, hval⟩ | ⟨hw1, hr0, hv⟩
        · rw [writersOn_middle_true l₁ l₂ _ k' hWold] at hw0
          omega
        · refine ⟨noZero_tblSet_self tbl k' 0, Or.inl ⟨?_, ?_⟩⟩
          · rw [writersOn_middle_false l₁ l₂ _ k' hWnew]
            rw [writersOn_middle_true l₁ l₂ _ k' hWold] at hw1
            omega
          · rw [lookup0_tblSet_self, readersOn_middle_false l₁ l₂ _ k' (hRmid _)]
            rw [readersOn_middle_false l₁ l₂ _ k' (hRmid _)] at hr0
            omega
      · have hkne : k ≠ k' := fun h => hkk h.symm
        have hWmid : ∀ ph, isWriterOn k' (⟨op, k, ph⟩ : ThreadSt K) = false := by
          intro ph
          rw [isWriterOn_eval]
          simp [hkne]
        refine ⟨?_, ?_⟩
        · rw [hasEntry_tblSet_ne _ _ _ _ hkk, lookup0_tblSet_ne _ _ _ _ hkk]
          exact hnz
        · rw [lookup0_tblSet_ne _ _ _ _ hkk,
            writersOn_middle_false l₁ l₂ _ k' (hWmid _),
            readersOn_middle_false l₁ l₂ _ k' (hRmid _)]
          rw [writersOn_middle_false l₁ l₂ _ k' (hWmid _),
            readersOn_middle_false l₁ l₂ _ k' (hRmid _)] at hcase
          exact hcase

theorem inv_init {K : Type} [DecidableEq K] (ops : List (OpKind × K)) :
    Inv (initState ops) := by
  intro k
  have hcount : ∀ p : ThreadSt K → Bool,
      (∀ op k₀, p ⟨op, k₀, Phase.ready⟩ = false) →
      (ops.map (fun q => (⟨q.1, q.2, Phase.ready⟩ : ThreadSt K))).countP p = 0 := by
    intro p hp
    induction ops with
    | nil => rfl
    | cons q ops ih =>
        rw [List.map_cons, List.countP_cons, hp, ih]
        simp
  have hr : readersOn (initState ops (K := K)).threads k = 0 :=
    hcount (isReaderOn k) (fun op k₀ => by rw [isReaderOn_eval]; simp)
  have hw : writersOn (initState ops (K := K)).threads k = 0 :=
    hcount (isWriterOn k) (fun op k₀ => by rw [isWriterOn_eval]; simp)
  have h0 : lookup0 (initState ops (K := K)).table k = 0 := by
    simp [initState, lookup0, dictLookup]
  refine ⟨?_, Or.inl ⟨hw, ?_⟩⟩
  · intro h
    simp [initState, hasEntry, dictLookup] at h
  · rw [h0, hr]
    rfl

theorem inv_reach {K : Type} [DecidableEq K] {s : CoordState K}
    (h : Reach s) : Inv s := by
  induction h with
  | init ops => exact inv_init ops
  | step s s' _ hstep ih => exact inv_step ih hstep

/-- C1: in every state of the coordinator reachable by any sequence of
get/put/remove/getOrCompute steps, each key's Key State Table entry is either
absent (idle, and then no operation is in flight on the key), a positive
integer equal to the number of in-flight reader-type operations with no writer
in flight, or `-1` with exactly one in-flight writer-type operation and no
reader in flight; it is never simultaneously negative and positive. -/
theorem keyStateTable_invariant {K : Type} [DecidableEq K] {s : CoordState K}
    (h : Reach s) (k : K) :
    ¬(lookup0 s.table k < 0 ∧ 0 < lookup0 s.table k) ∧
    ((hasEntry s.table k = false ∧ lookup0 s.table k = 0 ∧
        readersOn s.threads k = 0 ∧ writersOn s.threads k = 0) ∨
     (0 < lookup0 s.table k ∧
        lookup0 s.table k = (readersOn s.threads k : Int) ∧
        writersOn s.threads k = 0) ∨
     (lookup0 s.table k = -1 ∧ writersOn s.threads k = 1 ∧
        readersOn s.threads k = 0)) := by
  rcases inv_reach h k with ⟨hnz, hcase⟩
  refine ⟨fun hc => by omega, ?_⟩
  rcases hcase with ⟨hw0, hval⟩ | ⟨hw1, hr0, hv⟩
  · by_cases hr : readersOn s.threads k = 0
    · refine Or.inl ⟨?_, by omega, hr, hw0⟩
      cases hE : hasEntry s.table k with
      | false => rfl
      | true =>
          exfalso
          exact hnz hE (by omega)
    · exact Or.inr (Or.inl ⟨by omega, hval, hw0⟩)
  · exact Or.inr (Or.inr ⟨hv, hw1, hr0⟩)

/-- Witness for C1 at a concrete reachable state: one `put` thread holding the
writer slot for key `0`. -/
theorem keyStateTable_invariant_witness :
    ¬(lookup0 (tblSet ([] : List (Nat × Int)) 0 (-1)) 0 < 0 ∧
        0 < lookup0 (tblSet ([] : List (Nat × Int)) 0 (-1)) 0) ∧
    ((hasEntry (tblSet ([] : List (Nat × Int)) 0 (-1)) 0 = false ∧
        lookup0 (tblSet ([] : List (Nat × Int)) 0 (-1)) 0 = 0 ∧
        readersOn [(⟨OpKind.put, 0, Phase.inFlight⟩ : ThreadSt Nat)] 0 = 0 ∧
        writersOn [(⟨OpKind.put, 0, Phase.inFlight⟩ : ThreadSt Nat)] 0 = 0) ∨
     (0 < lookup0 (tblSet ([] : List (Nat × Int)) 0 (-1)) 0 ∧
        lookup0 (tblSet ([] : List (Nat × Int)) 0 (-1)) 0
          = (readersOn [(⟨OpKind.put, 0, Phase.inFlight⟩ : ThreadSt Nat)] 0 : Int) ∧
        writersOn [(⟨OpKind.put, 0, Phase.inFlight⟩ : ThreadSt Nat)] 0 = 0) ∨
     (lookup0 (tblSet ([] : List (Nat × Int)) 0 (-1)) 0 = -1 ∧
        writersOn [(⟨OpKind.put, 0, Phase.inFlight⟩ : ThreadSt Nat)] 0 = 1 ∧
        readersOn [(⟨OpKind.put, 0, Phase.inFlight⟩ : ThreadSt Nat)] 0 = 0)) :=
  keyStateTable_invariant
    (Reach.step _ _ (Reach.init [(OpKind.put, 0)])
      (CStep.acquireWrite [] [] [] 0 OpKind.put rfl (by decide))) 0

/-- C3: backend calls of two conflicting operations on the same key never
overlap: in every reachable state at most one writer-type operation is in
flight per key, and no reader is in flight while a writer is, so a `put`
started during a `get` on the same key cannot begin its backend call before
the `get` retires and two `put`s on one key are serialized; meanwhile two
writers on two different keys can both be in flight in a reachable state. -/
theorem conflicting_backend_calls_serialized :
    (∀ (K : Type) [inst : DecidableEq K] (s : CoordState K), Reach s → ∀ k : K,
        writersOn s.threads k ≤ 1 ∧
        (1 ≤ writersOn s.threads k → readersOn s.threads k = 0)) ∧
    (∃ s : CoordState Nat, Reach s ∧
        s.threads = [⟨OpKind.put, 0, Phase.inFlight⟩, ⟨OpKind.put, 1, Phase.inFlight⟩]) := by
  constructor
  · intro K inst s hs k
    rcases inv_reach hs k with ⟨hnz, hcase⟩
    rcases hcase with ⟨hw0, hval⟩ | ⟨hw1, hr0, hv⟩
    · exact ⟨by omega, fun h => by omega⟩
    · exact ⟨by omega, fun h => hr0⟩
  · refine ⟨⟨tblSet (tblSet [] 0 (-1)) 1 (-1),
      [⟨OpKind.put, 0, Phase.inFlight⟩] ++ ⟨OpKind.put, 1, Phase.inFlight⟩ :: []⟩,
      ?_, rfl⟩
    exact Reach.step _ _
      (Reach.step _ _ (Reach.init [(OpKind.put, 0), (OpKind.put, 1)])
        (CStep.acquireWrite [] [] [⟨OpKind.put, 1, Phase.ready⟩] 0 OpKind.put rfl
          (by decide)))
      (CStep.acquireWrite (tblSet [] 0 (-1)) [⟨OpKind.put, 0, Phase.inFlight⟩] [] 1
        OpKind.put rfl (by decide))

/-- Witness for C3: the no-reader-during-writer part evaluated on the
concrete reachable state with one in-flight `put` on key `0`. -/
theorem conflicting_backend_calls_serialized_witness :
    readersOn [(⟨OpKind.put, 0, Phase.inFlight⟩ : ThreadSt Nat)] 0 = 0 :=
  (conflicting_backend_calls_serialized.1 Nat
    ⟨tblSet ([] : List (Nat × Int)) 0 (-1), [⟨OpKind.put, 0, Phase.inFlight⟩]⟩
    (Reach.step _ _ (Reach.init [(OpKind.put, 0)])
      (CStep.acquireWrite [] [] [] 0 OpKind.put rfl (by decide))) 0).2 (by decide)

/-- C8: when a `get` retires, the decrement that brings the reader count from
`1` to `0` deletes the key's entry, and in any reachable state in which no
operation is in flight on a key the Key State Table holds no entry for it. -/
theorem reader_retire_deletes_entry :
    (∀ (K : Type) [inst : DecidableEq K] (tbl : List (K × Int)) (k : K),
        lookup0 tbl k = 1 →
        hasEntry (tblSet tbl k (lookup0 tbl k - 1)) k = false) ∧
    (∀ (K : Type) [inst : DecidableEq K] (s : CoordState K), Reach s → ∀ k : K,
        readersOn s.threads k = 0 → writersOn s.threads k = 0 →
        hasEntry s.table k = false) := by
  constructor
  · intro K inst tbl k h
    rw [h]
    norm_num
    exact hasEntry_tblSet_zero tbl k
  · intro K inst s hs k hr hw
    rcases inv_reach hs k with ⟨hnz, hcase⟩
    rcases hcase with ⟨hw0, hval⟩ | ⟨hw1, hr0, hv⟩
    · cases hE : hasEntry s.table k with
      | false => rfl
      | true =>
          exfalso
          rw [hr] at hval
          exact hnz hE (by omega)
    · rw [hw1] at hw
      exact absurd hw one_ne_zero
  -- no in-flight writer: the table value equals the reader count, zero

/-- Witness for C8: both parts at concrete inputs — a table holding `1` for
key `0`, and the initial state with one pending `get` (nothing in flight). -/
theorem reader_retire_deletes_entry_witness :
    hasEntry (tblSet [((0 : Nat), (1 : Int))] 0 (lookup0 [((0 : Nat), (1 : Int))] 0 - 1)) 0
        = false ∧
    hasEntry ([] : List (Nat × Int)) 0 = false :=
  ⟨reader_retire_deletes_entry.1 Nat [((0 : Nat), (1 : Int))] 0 (by decide),
   reader_retire_deletes_entry.2 Nat (initState [(OpKind.get, 0)])
     (Reach.init [(OpKind.get, 0)]) 0 (by decide) (by decide)⟩

/-! ### Single-flight `getOrCompute`: two callers racing on an absent key

Modelled from the spec: `getOrCompute(key, compute)` waits until
`state[key] == 0`, sets `state[key] = -1` (a writer slot), then outside the
lock runs the backend's compute-if-absent (check `contains`; if absent call
`compute()` then `put`), and finally retires the writer slot.  Two caller
threads race for one key that is initially absent from the backend; the two
compute functions return `c1` and `c2` respectively. -/

/-- A racing caller's progress: not yet acquired; holding the writer slot
before its backend call; backend call done with result `v` and a flag telling
whether `compute` was invoked; retired with its result. -/
inductive GPhase (V : Type) : Type
  | ready : GPhase V
  | locked : GPhase V
  | ran : V → Bool → GPhase V
  | retired : V → Bool → GPhase V

/-- Whether the caller currently holds the key's writer slot (its critical
window, from acquire to retire). -/
def GPhase.active {V : Type} : GPhase V → Bool
  | GPhase.locked => true
  | GPhase.ran _ _ => true
  | _ => false

/-- The shared state of the two racing `getOrCompute` callers: each thread's
phase, the key's entry in the Key State Table, and the backend's value for
the key. -/
structure GPState (V : Type) where
  th1 : GPhase V
  th2 : GPhase V
  tblK : Int
  backend : Option V

/-- Modelled from the spec: the atomic transitions of the two racing
`getOrCompute` callers.  A caller acquires only when `state[key] == 0`; its
backend call invokes `compute` and stores the result only when the key is
absent, otherwise it just reads the cached value; retiring resets the key
state to idle. -/
inductive GStep {V : Type} (c1 c2 : V) : GPState V → GPState V → Prop
  | lock1 (p2 : GPhase V) (bk : Option V) :
      GStep c1 c2 ⟨GPhase.ready, p2, 0, bk⟩ ⟨GPhase.locked, p2, -1, bk⟩
  | backendMiss1 (p2 : GPhase V) (t : Int) :
      GStep c1 c2 ⟨GPhase.locked, p2, t, none⟩ ⟨GPhase.ran c1 true, p2, t, some c1⟩
  | backendHit1 (p2 : GPhase V) (t : Int) (v : V) :
      GStep c1 c2 ⟨GPhase.locked, p2, t, some v⟩ ⟨GPhase.ran v false, p2, t, some v⟩
  | retire1 (p2 : GPhase V) (t : Int) (bk : Option V) (v : V) (b : Bool) :
      GStep c1 c2 ⟨GPhase.ran v b, p2, t, bk⟩ ⟨GPhase.retired v b, p2, 0, bk⟩
  | lock2 (p1 : GPhase V) (bk : Option V) :
      GStep c1 c2 ⟨p1, GPhase.ready, 0, bk⟩ ⟨p1, GPhase.locked, -1, bk⟩
  | backendMiss2 (p1 : GPhase V) (t : Int) :
      GStep c1 c2 ⟨p1, GPhase.locked, t, none⟩ ⟨p1, GPhase.ran c2 true, t, some c2⟩
  | backendHit2 (p1 : GPhase V) (t : Int) (v : V) :
      GStep c1 c2 ⟨p1, GPhase.locked, t, some v⟩ ⟨p1, GPhase.ran v false, t, some v⟩
  | retire2 (p1 : GPhase V) (t : Int) (bk : Option V) (v : V) (b : Bool) :
      GStep c1 c2 ⟨p1, GPhase.ran v b, t, bk⟩ ⟨p1, GPhase.retired v b, 0, bk⟩

/-- States reachable by the two racing callers from an idle key that is
absent from the backend. -/
inductive GReach {V : Type} (c1 c2 : V) : GPState V → Prop
  | init : GReach c1 c2 ⟨GPhase.ready, GPhase.ready, 0, none⟩
  | step (s s' : GPState V) : GReach c1 c2 s → GStep c1 c2 s s' → GReach c1 c2 s'

/-- The exhaustive list of configurations the racing callers can reach. -/
def GInv {V : Type} (c1 c2 : V) (s : GPState V) : Prop :=
  s = ⟨GPhase.ready, GPhase.ready, 0, none⟩ ∨
  s = ⟨GPhase.locked, GPhase.ready, -1, none⟩ ∨
  s = ⟨GPhase.ready, GPhase.locked, -1, none⟩ ∨
  s = ⟨GPhase.ran c1 true, GPhase.ready, -1, some c1⟩ ∨
  s = ⟨GPhase.ready, GPhase.ran c2 true, -1, some c2⟩ ∨
  s = ⟨GPhase.retired c1 true, GPhase.ready, 0, some c1⟩ ∨
  s = ⟨GPhase.ready, GPhase.retired c2 true, 0, some c2⟩ ∨
  s = ⟨GPhase.retired c1 true, GPhase.locked, -1, some c1⟩ ∨
  s = ⟨GPhase.locked, GPhase.retired c2 true, -1, some c2⟩ ∨
  s = ⟨GPhase.retired c1 true, GPhase.ran c1 false, -1, some c1⟩ ∨
  s = ⟨GPhase.ran c2 false, GPhase.retired c2 true, -1, some c2⟩ ∨
  s = ⟨GPhase.retired c1 true, GPhase.retired c1 false, 0, some c1⟩ ∨
  s = ⟨GPhase.retired c2 false, GPhase.retired c2 true, 0, some c2⟩

theorem ginv_step {V : Type} {c1 c2 : V} {s s' : GPState V}
    (hinv : GInv c1 c2 s) (hstep : GStep c1 c2 s s') : GInv c1 c2 s' := by
  unfold GInv at hinv ⊢
  cases hstep <;>
    rcases hinv with h | h | h | h | h | h | h | h | h | h | h | h | h <;>
    simp_all

theorem ginv_reach {V : Type} {c1 c2 : V} {s : GPState V}
    (h : GReach c1 c2 s) : GInv c1 c2 s := by
  induction h with
  | init => exact Or.inl rfl
  | step s s' _ hstep ih => exact ginv_step ih hstep

/-- C2: with the key absent from the backend, two callers racing through
`getOrCompute` never hold the writer slot simultaneously (the loser stays
blocked until the winner retires), and once both have retired, `compute` was
invoked exactly once — by the winner — and both callers return the winner's
cached value. -/
theorem getOrCompute_single_flight {V : Type} (c1 c2 : V) {s : GPState V}
    (h : GReach c1 c2 s) :
    (s.th1.active && s.th2.active) = false ∧
    (∀ v₁ b₁ v₂ b₂, s.th1 = GPhase.retired v₁ b₁ → s.th2 = GPhase.retired v₂ b₂ →
      (b₁ = true ∧ b₂ = false ∧ v₁ = c1 ∧ v₂ = c1) ∨
      (b₁ = false ∧ b₂ = true ∧ v₁ = c2 ∧ v₂ = c2)) := by
  rcases ginv_reach h with h' | h' | h' | h' | h' | h' | h' | h' | h' | h' | h' | h' | h' <;>
    subst h' <;>
    refine ⟨rfl, ?_⟩ <;>
    intro v₁ b₁ v₂ b₂ h1 h2 <;>
    simp_all [GPhase.retired.injEq]

/-- Witness for C2: the full winning trace of caller 1 followed by caller 2
observing the cached value, with `compute` results `1` and `2`. -/
theorem getOrCompute_single_flight_witness :
    (((GPhase.retired 1 true : GPhase Nat).active
        && (GPhase.retired 1 false : GPhase Nat).active) = false) ∧
    (∀ v₁ b₁ v₂ b₂, (GPhase.retired 1 true : GPhase Nat) = GPhase.retired v₁ b₁ →
      (GPhase.retired 1 false : GPhase Nat) = GPhase.retired v₂ b₂ →
      (b₁ = true ∧ b₂ = false ∧ v₁ = 1 ∧ v₂ = 1) ∨
      (b₁ = false ∧ b₂ = true ∧ v₁ = 2 ∧ v₂ = 2)) :=
  getOrCompute_single_flight 1 2
    (GReach.step _ _
      (GReach.step _ _
        (GReach.step _ _
          (GReach.step _ _
            (GReach.step _ _
              (GReach.step _ _ GReach.init
                (GStep.lock1 GPhase.ready none))
              (GStep.backendMiss1 GPhase.ready (-1)))
            (GStep.retire1 GPhase.ready (-1) (some 1) 1 true))
          (GStep.lock2 (GPhase.retired 1 true) (some 1)))
        (GStep.backendHit2 (GPhase.retired 1 true) (-1) 1))
      (GStep.retire2 (GPhase.retired 1 true) (-1) (some 1) 1 false))

/-! ### Failure semantics of the coordinator's operations

Modelled from the spec: each operation acquires its per-key slot, performs
the backend call outside the lock, and performs the retire-and-wake
bookkeeping unconditionally (a try/finally around the backend call, §4.1 and
§7), then returns the backend's result or re-raises its exception.  The
backend call's outcome — a value or an exception — is passed in as `res`. -/

/-- Modelled from the spec: `get` run to completion — increment the key's
reader count, run the backend call with outcome `res`, then unconditionally
decrement (deleting the entry at zero) and pass `res` through. -/
def coordGet {K V E : Type} [DecidableEq K] (tbl : List (K × Int)) (k : K)
    (res : Except E V) : List (K × Int) × Except E V :=
  let acquired := tblSet tbl k (lookup0 tbl k + 1)
  let retired := tblSet acquired k (lookup0 acquired k - 1)
  (retired, res)

/-- Modelled from the spec: the common writer protocol of `put`, `remove`
and `getOrCompute` run to completion — set the key's state to `-1`, run the
backend call with outcome `res`, then unconditionally reset the key to idle
and pass `res` through. -/
def coordWriter {K V E : Type} [DecidableEq K] (tbl : List (K × Int)) (k : K)
    (res : Except E V) : List (K × Int) × Except E V :=
  let acquired := tblSet tbl k (-1)
  let retired := tblSet acquired k 0
  (retired, res)

/-- Modelled from the spec: `put` follows the writer protocol. -/
def coordPut {K V E : Type} [DecidableEq K] (tbl : List (K × Int)) (k : K)
    (res : Except E V) : List (K × Int) × Except E V :=
  coordWriter tbl k res

/-- Modelled from the spec: `remove` follows the identical writer protocol. -/
def coordRmv {K V E : Type} [DecidableEq K] (tbl : List (K × Int)) (k : K)
    (res : Except E V) : List (K × Int) × Except E V :=
  coordWriter tbl k res

/-- Modelled from the spec: `getOrCompute` holds a writer slot for its
backend compute-if-absent call. -/
def coordGetPut {K V E : Type} [DecidableEq K] (tbl : List (K × Int)) (k : K)
    (res : Except E V) : List (K × Int) × Except E V :=
  coordWriter tbl k res

theorem coordGet_spec {K V E : Type} [DecidableEq K] (tbl : List (K × Int))
    (k : K) (res : Except E V) :
    (coordGet tbl k res).2 = res ∧
    ∀ k', lookup0 (coordGet tbl k res).1 k' = lookup0 tbl k' := by
  refine ⟨rfl, fun k' => ?_⟩
  unfold coordGet
  dsimp only
  by_cases hk : k' = k
  · subst hk
    rw [lookup0_tblSet_self, lookup0_tblSet_self]
    omega
  · rw [lookup0_tblSet_ne _ _ _ _ hk, lookup0_tblSet_ne _ _ _ _ hk]

theorem coordWriter_spec {K V E : Type} [DecidableEq K] (tbl : List (K × Int))
    (k : K) (res : Except E V) (h0 : lookup0 tbl k = 0) :
    (coordWriter tbl k res).2 = res ∧
    ∀ k', lookup0 (coordWriter tbl k res).1 k' = lookup0 tbl k' := by
  refine ⟨rfl, fun k' => ?_⟩
  unfold coordWriter
  dsimp only
  by_cases hk : k' = k
  · subst hk
    rw [lookup0_tblSet_self, h0]
  · rw [lookup0_tblSet_ne _ _ _ _ hk, lookup0_tblSet_ne _ _ _ _ hk]

/-- C4: when the backend call of any coordinator operation raises, the
operation still performs its retire bookkeeping unconditionally — the
resulting Key State Table is pointwise what it was before the operation, and
identical to the table a successful call would leave — and the same
exception is returned to the caller unchanged. -/
theorem backend_exception_releases_slot {K V E : Type} [DecidableEq K]
    (tbl : List (K × Int)) (k : K) (e : E) (v : V) :
    ((coordGet tbl k (Except.error e : Except E V)).2 = Except.error e ∧
     (∀ k', lookup0 (coordGet tbl k (Except.error e : Except E V)).1 k'
        = lookup0 tbl k') ∧
     (coordGet tbl k (Except.error e : Except E V)).1
        = (coordGet tbl k (Except.ok v : Except E V)).1) ∧
    (lookup0 tbl k = 0 →
      ((coordPut tbl k (Except.error e : Except E V)).2 = Except.error e ∧
       (∀ k', lookup0 (coordPut tbl k (Except.error e : Except E V)).1 k'
          = lookup0 tbl k') ∧
       (coordPut tbl k (Except.error e : Except E V)).1
          = (coordPut tbl k (Except.ok v : Except E V)).1) ∧
      ((coordRmv tbl k (Except.error e : Except E V)).2 = Except.error e ∧
       (∀ k', lookup0 (coordRmv tbl k (Except.error e : Except E V)).1 k'
          = lookup0 tbl k')) ∧
      ((coordGetPut tbl k (Except.error e : Except E V)).2 = Except.error e ∧
       (∀ k', lookup0 (coordGetPut tbl k (Except.error e : Except E V)).1 k'
          = lookup0 tbl k'))) := by
  refine ⟨⟨rfl, (coordGet_spec tbl k _).2, rfl⟩, fun h0 => ?_⟩
  exact ⟨⟨rfl, (coordWriter_spec tbl k _ h0).2, rfl⟩,
    ⟨rfl, (coordWriter_spec tbl k _ h0).2⟩,
    ⟨rfl, (coordWriter_spec tbl k _ h0).2⟩⟩

/-- Witness for C4: a failing backend call for key `0` on an empty table, for
both the reader protocol and the writer protocol. -/
theorem backend_exception_releases_slot_witness :
    (coordGet ([] : List (Nat × Int)) 0 (Except.error () : Except Unit Nat)).2
        = Except.error () ∧
    lookup0 (coordGet ([] : List (Nat × Int)) 0 (Except.error () : Except Unit Nat)).1 0
        = lookup0 ([] : List (Nat × Int)) 0 ∧
    (coordPut ([] : List (Nat × Int)) 0 (Except.error () : Except Unit Nat)).2
        = Except.error () ∧
    lookup0 (coordPut ([] : List (Nat × Int)) 0 (Except.error () : Except Unit Nat)).1 0
        = lookup0 ([] : List (Nat × Int)) 0 :=
  ⟨(backend_exception_releases_slot [] 0 () 5).1.1,
   (backend_exception_releases_slot [] 0 () 5).1.2.1 0,
   ((backend_exception_releases_slot [] 0 () 5).2 (by decide)).1.1,
   ((backend_exception_releases_slot [] 0 () 5).2 (by decide)).1.2.1 0⟩

/-- C5: `get` fails with the not-found error exactly when the backend has no
value for the key (for the memory backend the `KeyError` of the dict lookup,
for the disk backend the `FileNotFoundError` of `read_bytes`); when a value
is stored it is returned; and a failing `get` propagates its error only after
the per-key reader slot has been retired. -/
theorem get_notFound_iff_absent :
    (∀ (K V : Type) [inst : DecidableEq K] (m : MemoryCache K V) (k : K),
        MemoryCache.get m k = none ↔ MemoryCache.contains m k = false) ∧
    (∀ (c : Codec) (d : DiskCache) (f : List Char),
        DiskCache.get c d f = Except.error GetErr.notFound ↔
          DiskCache.contains d f = false) ∧
    (∀ (K V : Type) [inst : DecidableEq K] (m : MemoryCache K V) (k : K) (v : V),
        dictLookup m.cache k = some v → MemoryCache.get m k = some v) ∧
    (∀ (K V E : Type) [inst : DecidableEq K] (tbl : List (K × Int)) (k : K) (e : E),
        (coordGet tbl k (Except.error e : Except E V)).2 = Except.error e ∧
        ∀ k', lookup0 (coordGet tbl k (Except.error e : Except E V)).1 k'
          = lookup0 tbl k') := by
  refine ⟨?_, ?_, ?_, ?_⟩
  · intro K V inst m k
    unfold MemoryCache.get MemoryCache.contains
    cases dictLookup m.cache k <;> simp
  · intro c d f
    unfold DiskCache.get DiskCache.contains
    cases h : dictLookup d.files (DiskCache.private_name f) with
    | none => simp
    | some bs =>
        by_cases hg : endsWithGz f = true
        · simp [hg]
        · simp only [Option.isSome_some, Bool.true_eq_false, iff_false]
          rw [if_neg (by simpa using hg)]
          cases c.decomp bs <;> simp
  · intro K V inst m k v h
    unfold MemoryCache.get
    exact h
  · intro K V E inst tbl k e
    exact ⟨rfl, (coordGet_spec tbl k _).2⟩

/-- Witness for C5: the stored-value conjunct at a one-entry memory cache. -/
theorem get_notFound_iff_absent_witness :
    MemoryCache.get (⟨[(0, 5)]⟩ : MemoryCache Nat Nat) 0 = some 5 :=
  get_notFound_iff_absent.2.2.1 Nat Nat (⟨[(0, 5)]⟩ : MemoryCache Nat Nat) 0 5 (by decide)

/-- C6: `put(k, v)` followed by `get(k)` returns `v`: the memory backend
returns the identical stored value, and the disk backend returns the bytes of
`v` after its compression/decompression round trip (gzip being lossless);
`put` itself also returns the received value. -/
theorem put_get_roundtrip :
    (∀ (K V : Type) [inst : DecidableEq K] (m : MemoryCache K V) (k : K) (v : V),
        MemoryCache.get (MemoryCache.put m k v).1 k = some v ∧
        (MemoryCache.put m k v).2 = v) ∧
    (∀ (c : Codec), c.Lossless → ∀ (d : DiskCache) (f : List Char) (v : List Nat),
        DiskCache.get c (DiskCache.put c d f v).1 f = Except.ok v ∧
        (DiskCache.put c d f v).2 = v) := by
  constructor
  · intro K V inst m k v
    unfold MemoryCache.get MemoryCache.put
    exact ⟨dictLookup_dictInsert_self m.cache k v, rfl⟩
  · intro c hc d f v
    refine ⟨?_, rfl⟩
    unfold DiskCache.get DiskCache.put
    dsimp only
    rw [dictLookup_dictInsert_self]
    by_cases hg : endsWithGz f = true
    · simp [hg]
    · simp only [Bool.not_eq_true] at hg
      simp [hg, hc v]

/-- A concrete lossless codec for witnesses: prepend one header byte. -/
def demoCodec : Codec :=
  ⟨fun b => 0 :: b, List.tail?⟩

theorem demoCodec_lossless : demoCodec.Lossless := fun _ => rfl

/-- Witness for C6: round trip of the bytes `[7]` under the filename `"a"`
through an empty disk cache, and of the value `7` through a memory cache. -/
theorem put_get_roundtrip_witness :
    MemoryCache.get (MemoryCache.put (⟨[]⟩ : MemoryCache Nat Nat) 0 7).1 0 = some 7 ∧
    DiskCache.get demoCodec
        (DiskCache.put demoCodec ⟨[]⟩ ['a'] [7]).1 ['a'] = Except.ok [7] :=
  ⟨(put_get_roundtrip.1 Nat Nat (⟨[]⟩ : MemoryCache Nat Nat) 0 7).1,
   (put_get_roundtrip.2 demoCodec demoCodec_lossless ⟨[]⟩ ['a'] [7]).1⟩

/-- C7 (evaluation at the failing input, plus the disk backend's behaviour):
`MemoryCache.rmv` on an absent key raises a `KeyError` (the `del` on the dict
fails), contradicting the claimed no-op; `DiskCache.rmv` on an absent key is
a no-op and `rmv` twice equals `rmv` once. -/
theorem rmv_absent_memory_raises :
    MemoryCache.rmv (⟨[]⟩ : MemoryCache Nat Nat) 0 = none ∧
    (∀ (d : DiskCache) (f : List Char),
        DiskCache.contains d f = false → DiskCache.rmv d f = d) ∧
    (∀ (d : DiskCache) (f : List Char),
        DiskCache.rmv (DiskCache.rmv d f) f = DiskCache.rmv d f) := by
  refine ⟨rfl, ?_, ?_⟩
  · intro d f h
    unfold DiskCache.rmv
    unfold DiskCache.contains at h
    rw [if_neg (by simp [h])]
  · intro d f
    unfold DiskCache.rmv
    by_cases h : (dictLookup d.files (DiskCache.private_name f)).isSome = true
    · rw [if_pos h]
      dsimp only
      rw [if_neg (by simp [dictLookup_dictErase_self])]
    · rw [if_neg h, if_neg h]

/-- Witness for C7's hypothesised conjuncts: removing the absent filename
`"a"` from an empty disk cache, twice. -/
theorem rmv_absent_memory_raises_witness :
    DiskCache.rmv ⟨[]⟩ ['a'] = (⟨[]⟩ : DiskCache) ∧
    DiskCache.rmv (DiskCache.rmv ⟨[]⟩ ['a']) ['a'] = DiskCache.rmv ⟨[]⟩ ['a'] :=
  ⟨rmv_absent_memory_raises.2.1 ⟨[]⟩ ['a'] (by decide),
   rmv_absent_memory_raises.2.2 ⟨[]⟩ ['a']⟩

theorem endsWithGz_append_gz (f : List Char) : endsWithGz (f ++ gzChars) = true := by
  unfold endsWithGz
  rw [List.reverse_append,
    show (3 : Nat) = gzChars.reverse.length from rfl, List.take_left]
  simp

/-- C9: a filename `f` that does not end in `".gz"` is stored on disk at
`f ++ ".gz"`; after `put(f, v)` both `contains(f)` and `contains(f ++ ".gz")`
hold (the two names alias one entry), `get(f)` returns the decompressed
bytes `v` and `get(f ++ ".gz")` returns the raw stored, compressed bytes. -/
theorem diskcache_gz_alias (c : Codec) (hc : c.Lossless) (d : DiskCache)
    (f : List Char) (v : List Nat) (hf : endsWithGz f = false) :
    DiskCache.private_name f = f ++ gzChars ∧
    DiskCache.contains (DiskCache.put c d f v).1 f = true ∧
    DiskCache.contains (DiskCache.put c d f v).1 (f ++ gzChars) = true ∧
    DiskCache.get c (DiskCache.put c d f v).1 f = Except.ok v ∧
    DiskCache.get c (DiskCache.put c d f v).1 (f ++ gzChars)
      = Except.ok (c.comp v) := by
  have hpn : DiskCache.private_name f = f ++ gzChars := by
    unfold DiskCache.private_name
    rw [if_neg (by simp [hf])]
  have hpn' : DiskCache.private_name (f ++ gzChars) = f ++ gzChars := by
    unfold DiskCache.private_name
    rw [if_pos (endsWithGz_append_gz f)]
  refine ⟨hpn, ?_, ?_, ?_, ?_⟩
  · unfold DiskCache.contains DiskCache.put
    dsimp only
    rw [dictLookup_dictInsert_self]
    rfl
  · unfold DiskCache.contains DiskCache.put
    dsimp only
    rw [hpn', hpn, dictLookup_dictInsert_self]
    rfl
  · unfold DiskCache.get DiskCache.put
    dsimp only
    rw [dictLookup_dictInsert_self]
    simp [hf, hc v]
  · unfold DiskCache.get DiskCache.put
    dsimp only
    rw [hpn', hpn, dictLookup_dictInsert_self]
    simp [hf, endsWithGz_append_gz f]

/-- Witness for C9: the filename `"a"` with bytes `[7]` through an empty
disk cache under the demo codec. -/
theorem diskcache_gz_alias_witness :
    DiskCache.private_name ['a'] = ['a'] ++ gzChars ∧
    DiskCache.contains (DiskCache.put demoCodec ⟨[]⟩ ['a'] [7]).1 ['a'] = true ∧
    DiskCache.contains (DiskCache.put demoCodec ⟨[]⟩ ['a'] [7]).1 (['a'] ++ gzChars)
        = true ∧
    DiskCache.get demoCodec (DiskCache.put demoCodec ⟨[]⟩ ['a'] [7]).1 ['a']
        = Except.ok [7] ∧
    DiskCache.get demoCodec (DiskCache.put demoCodec ⟨[]⟩ ['a'] [7]).1 (['a'] ++ gzChars)
        = Except.ok (demoCodec.comp [7]) :=
  diskcache_gz_alias demoCodec demoCodec_lossless ⟨[]⟩ ['a'] [7] (by decide)

/-- C10: the null backend stores nothing: `put` returns the value and leaves
the (never-touched) state unchanged, `contains` is `False` before and after
any sequence of `put`s, `get` always raises, and `rmv` is a no-op. -/
theorem nullcacher_noop (K V : Type) (c : NoneCache K V) (k : K) (v : V)
    (ps : List (K × V)) :
    NoneCache.contains c k = false ∧
    NoneCache.get c k = none ∧
    NoneCache.put c k v = (c, v) ∧
    NoneCache.rmv c k = c ∧
    ps.foldl (fun st p => (NoneCache.put st p.1 p.2).1) c = c ∧
    NoneCache.contains (ps.foldl (fun st p => (NoneCache.put st p.1 p.2).1) c) k
      = false := by
  have hfold : ∀ (qs : List (K × V)) (c₀ : NoneCache K V),
      qs.foldl (fun st p => (NoneCache.put st p.1 p.2).1) c₀ = c₀ := by
    intro qs
    induction qs with
    | nil => intro c₀; rfl
    | cons q qs ih => intro c₀; exact ih c₀
  exact ⟨rfl, rfl, rfl, rfl, hfold ps c, rfl⟩

end Coba
